import Mathlib

/-!
Shallow embedding of `src/app.py` (Eversee-Python): a CCTV surveillance
loop that reads frames from a video source, obtains a natural-language
description of each frame from an inference service, and keeps a bounded
in-memory log of descriptions served over HTTP.

External effects (the OpenCV capture handle, the `ollama` client, the
PIL/JPEG encoding, wall-clock timestamps) are modelled as oracle inputs
supplied per call or per loop cycle; the Python-level control flow, the
list operations on the shared `analysis_logs`, and the string processing
are embedded faithfully from the source.
-/

namespace Eversee

/-- Configuration constant `MODEL_NAME` from app.py line 16. -/
def MODEL_NAME : String := "moondream"

/-- Capacity bound hard-coded at app.py line 88 (`len(analysis_logs) > 100`). -/
def capacity : Nat := 100

/-- Python `str.strip()` on a list of characters: drop whitespace from
both ends (trailing side via reverse first, then leading). -/
def pyStripL (l : List Char) : List Char :=
  ((l.reverse.dropWhile Char.isWhitespace).reverse).dropWhile Char.isWhitespace

/-- Python `str.strip()` lifted to `String`. -/
def pyStrip (s : String) : String := String.mk (pyStripL s.data)

/-- Holds when the character list has neither a leading nor a trailing
whitespace character. -/
def noEdgeWS (l : List Char) : Bool :=
  (match l.head? with
   | none => true
   | some c => !c.isWhitespace) &&
  (match l.getLast? with
   | none => true
   | some c => !c.isWhitespace)

/-- Message part of an ollama chat response; `content` is `none` when the
key is missing, so that the `get` defaulting of app.py line 42 applies. -/
structure OllamaMessage where
  content : Option String
deriving Repr, DecidableEq

/-- Response of one `ollama.chat` call as read by app.py line 42: a dict
whose optional `message` holds an optional `content` string. -/
structure OllamaResponse where
  message : Option OllamaMessage
deriving Repr, DecidableEq

/-- Extraction at app.py line 42: each missing key defaults to empty, as
in the chained `get` calls with default arguments. -/
def getContent (r : OllamaResponse) : String :=
  match r.message with
  | none => ""
  | some m => m.content.getD ""

/-- Fixed fallback description (app.py lines 42 and 45). -/
def fallbackDescription : String := "Everything looks normal."

/-- Prompt template of `describe_image` (app.py lines 32-35),
parameterized only by the frame number. -/
def mkPrompt (frame_number : Nat) : String :=
  "\nYou are monitoring a live CCTV frame. Analyze and provide a concise, actionable description.\nFrame number: " ++ toString frame_number ++ "\n"

/-- Outcome oracle for one `ollama.chat` call: `Except.error` models the
call raising an exception, `Except.ok` a returned response dict. The
oracle receives the model name, the prompt and the base64 image. -/
def ChatOracle : Type := String → String → String → Except String OllamaResponse

/-- Embedding of `describe_image` (app.py lines 31-45): call the
inference service; if the call raises, return the fallback; otherwise
strip the extracted content and, when the result is empty (Python `or`
on a falsy string), return the fallback. -/
def describe_image (chat : ChatOracle) (base64_image : String) (frame_number : Nat) : String :=
  match chat MODEL_NAME (mkPrompt frame_number) base64_image with
  | Except.error _ => fallbackDescription
  | Except.ok response =>
    let strippedContent := pyStrip (getContent response)
    if strippedContent = "" then fallbackDescription else strippedContent

/-- Opaque frame data produced by a successful `cap.read()`. -/
def Frame : Type := Nat

/-- Observable effects of one `safe_read` call (app.py lines 47-57): the
frame obtained, if any, and whether the failure path ran, i.e.
`cap.release()`, `time.sleep(1)` and the reopen via `cv2.VideoCapture`. -/
structure SafeReadResult where
  frame : Option Frame
  released : Bool
  slept : Bool
  reopened : Bool

/-- Embedding of `safe_read` (app.py lines 47-57), with the two potential
`cap.read()` outcomes supplied as oracles: `firstRead` from the existing
handle and `retryRead` from the freshly reopened handle, the latter
consulted only when the first read fails. -/
def safe_read (firstRead : Option Frame) (retryRead : Option Frame) : SafeReadResult :=
  match firstRead with
  | some f => ⟨some f, false, false, false⟩
  | none =>
    match retryRead with
    | some f => ⟨some f, true, true, true⟩
    | none => ⟨none, true, true, true⟩

/-- One entry of `analysis_logs` (app.py lines 82-86). -/
structure LogEntry where
  frame_number : Nat
  timestamp : String
  description : String
deriving Repr, DecidableEq

/-- Lines 87-89 of app.py as one store operation: `analysis_logs.append(log_entry)`
followed by popping index 0 when the length exceeds 100. -/
def appendLog (logs : List LogEntry) (e : LogEntry) : List LogEntry :=
  if (logs ++ [e]).length > capacity then (logs ++ [e]).tail else logs ++ [e]

/-- Embedding of the `/logs` handler `get_logs` (app.py lines 101-103):
it serializes `analysis_logs` itself; no copy, no lock, no transformation. -/
def get_logs (logs : List LogEntry) : List LogEntry := logs

/-- Oracle inputs consumed by one iteration of the `while True` loop
(app.py lines 71-91): either both reads inside `safe_read` failed and
the iteration continues without effects, or a frame was obtained,
carrying the wall-clock timestamp string, the outcome of `encode_image`
(which runs outside any try/except and may raise), and the chat oracle
for `describe_image`. -/
inductive CycleInput where
  | readFail
  | gotFrame (timestamp : String) (encoded : Except String String) (chat : ChatOracle)

/-- Mutable state of `surveillance_loop`: the local `frame_count` and
the global `analysis_logs`; `history` is a ghost variable recording
every entry ever appended, in append order. -/
structure LoopState where
  frame_count : Nat
  logs : List LogEntry
  history : List LogEntry
deriving Repr, DecidableEq

/-- One iteration of the loop body (app.py lines 72-91). An uncaught
Python exception, which only `encode_image` can raise here, is modelled
as `Except.error` and terminates the loop thread. -/
def loopStep (s : LoopState) (c : CycleInput) : Except String LoopState :=
  match c with
  | CycleInput.readFail => Except.ok s
  | CycleInput.gotFrame ts enc chat =>
    let n := s.frame_count + 1
    match enc with
    | Except.error msg => Except.error msg
    | Except.ok img =>
      let entry : LogEntry := ⟨n, ts, describe_image chat img n⟩
      Except.ok ⟨n, appendLog s.logs entry, s.history ++ [entry]⟩

/-- Runs the loop body over a finite prefix of cycles, stopping early
when an uncaught exception escapes an iteration. -/
def runLoop : LoopState → List CycleInput → Except String LoopState
  | s, [] => Except.ok s
  | s, c :: cs =>
    match loopStep s c with
    | Except.error msg => Except.error msg
    | Except.ok s' => runLoop s' cs

/-- State at loop entry: `frame_count = 0` (app.py line 69) and the
global `analysis_logs = []` (app.py line 20). -/
def initState : LoopState := ⟨0, [], []⟩

/-- How a run of `surveillance_loop` ends, observed after a finite
prefix of cycles. -/
inductive LoopOutcome where
  | fatal
  | crashed (msg : String)
  | running (s : LoopState)

/-- Embedding of `surveillance_loop` (app.py lines 62-96): when the
capture cannot be opened (line 65) it returns before reading anything;
otherwise it runs the loop, which an uncaught exception terminates. -/
def surveillance_loop (opened : Bool) (cycles : List CycleInput) : LoopOutcome :=
  if opened then
    match runLoop initState cycles with
    | Except.error msg => LoopOutcome.crashed msg
    | Except.ok s => LoopOutcome.running s
  else LoopOutcome.fatal

/-- Holds when a cycle's `encode_image` call does not raise. -/
def encodeOk : CycleInput → Prop
  | CycleInput.readFail => True
  | CycleInput.gotFrame _ enc _ => ∃ img, enc = Except.ok img

/-- Atomic, GIL-granularity operations on the shared list `analysis_logs`:
the producer's `append` (line 87) and its conditional pop of index 0
(lines 88-89) are two separate atomic list operations, and `read` is a
request handler serializing the current list (line 103). -/
inductive MicroOp where
  | pyAppend (e : LogEntry)
  | pyPopIfOver
  | read

/-- Runs an interleaved trace of atomic operations, returning the final
list and, for each `read`, the list the handler observed. -/
def runMicro : List LogEntry → List MicroOp → List LogEntry × List (List LogEntry)
  | logs, [] => (logs, [])
  | logs, MicroOp.pyAppend e :: ops => runMicro (logs ++ [e]) ops
  | logs, MicroOp.pyPopIfOver :: ops =>
    runMicro (if logs.length > capacity then logs.tail else logs) ops
  | logs, MicroOp.read :: ops =>
    let r := runMicro logs ops
    (r.1, get_logs logs :: r.2)

/-- Traces the program can produce: the producer's operations come in
`pyAppend` and `pyPopIfOver` pairs, one pair per appended entry, with
reads interleaved anywhere; the Bool records whether an append's
`pyPopIfOver` is still pending. -/
inductive ValidTrace : Bool → List MicroOp → Prop
  | nil : ValidTrace false []
  | read {p : Bool} {t : List MicroOp} :
      ValidTrace p t → ValidTrace p (MicroOp.read :: t)
  | app {e : LogEntry} {t : List MicroOp} :
      ValidTrace true t → ValidTrace false (MicroOp.pyAppend e :: t)
  | pop {t : List MicroOp} :
      ValidTrace false t → ValidTrace true (MicroOp.pyPopIfOver :: t)

/-! Helper lemmas about Python-style stripping. -/

theorem dropWhile_head?_false {α : Type} (p : α → Bool) (l : List α) {c : α}
    (h : (l.dropWhile p).head? = some c) : p c = false := by
  have hm := List.head?_dropWhile_not p l
  rw [h] at hm
  exact hm

theorem getLast?_dropWhile {α : Type} (p : α → Bool) (l : List α)
    (h : l.dropWhile p ≠ []) : (l.dropWhile p).getLast? = l.getLast? := by
  obtain ⟨t, ht⟩ := List.dropWhile_suffix (l := l) p
  conv_rhs => rw [← ht]
  rw [List.getLast?_append_of_ne_nil _ h]

theorem noEdgeWS_pyStripL (l : List Char) : noEdgeWS (pyStripL l) = true := by
  unfold noEdgeWS pyStripL
  rw [Bool.and_eq_true]
  constructor
  · cases hh : (((l.reverse.dropWhile Char.isWhitespace).reverse).dropWhile
        Char.isWhitespace).head? with
    | none => simp
    | some c => simp [dropWhile_head?_false _ _ hh]
  · by_cases hnil :
        ((l.reverse.dropWhile Char.isWhitespace).reverse).dropWhile Char.isWhitespace = []
    · simp [hnil]
    · rw [getLast?_dropWhile _ _ hnil, List.getLast?_reverse]
      cases hh : (l.reverse.dropWhile Char.isWhitespace).head? with
      | none => simp
      | some c => simp [dropWhile_head?_false _ _ hh]

theorem pyStripL_eq_nil (l : List Char) (h : ∀ c ∈ l, c.isWhitespace = true) :
    pyStripL l = [] := by
  unfold pyStripL
  have h1 : l.reverse.dropWhile Char.isWhitespace = [] := by
    rw [List.dropWhile_eq_nil_iff]
    intro x hx
    exact h x (List.mem_reverse.mp hx)
  rw [h1]
  rfl

/-- Claim C3: for every inference call that raises an error or returns
empty content, `describe_image` returns the fixed fallback string
"Everything looks normal." and completes without propagating any failure
to its caller (it is a total function into `String`). -/
theorem C3_describe_fallback (chat : ChatOracle) (img : String) (n : Nat)
    (h : (∃ msg, chat MODEL_NAME (mkPrompt n) img = Except.error msg) ∨
         (∃ r, chat MODEL_NAME (mkPrompt n) img = Except.ok r ∧
            pyStrip (getContent r) = "")) :
    describe_image chat img n = fallbackDescription := by
  rcases h with ⟨msg, hm⟩ | ⟨r, hr, hempty⟩
  · unfold describe_image
    rw [hm]
  · unfold describe_image
    rw [hr]
    simp [hempty]

/-- Witness for C3: a chat call that raises is mapped to the fallback. -/
theorem C3_describe_fallback_witness :
    ((fun _ _ _ => Except.error "connection refused" : ChatOracle) MODEL_NAME (mkPrompt 1) "" =
        Except.error "connection refused") ∧
      describe_image (fun _ _ _ => Except.error "connection refused") "" 1 =
        fallbackDescription :=
  ⟨rfl, C3_describe_fallback _ "" 1 (Or.inl ⟨"connection refused", rfl⟩)⟩

/-- Claim C5: `safe_read` on a failed first read releases the handle,
pauses, reopens the source and attempts exactly one more read; if that
also fails it returns no frame for the cycle without raising, and a
source failing once then succeeding yields a valid frame after exactly
one reopen, with no exception escaping (the function is total). -/
theorem C5_safe_read_reconnect :
    (∀ f : Frame, safe_read none (some f) =
        ⟨some f, true, true, true⟩) ∧
      (safe_read none none = ⟨none, true, true, true⟩) ∧
      ∀ (f : Frame) (r : Option Frame), safe_read (some f) r =
        ⟨some f, false, false, false⟩ :=
  ⟨fun _ => rfl, rfl, fun _ _ => rfl⟩

/-- Claim C7: a loop iteration in which no frame is obtained has no side
effects: the resulting state (frame counter, log store and append
history) is identical, and no exception is raised. -/
theorem C7_failed_cycle_no_effect (s : LoopState) :
    loopStep s CycleInput.readFail = Except.ok s := rfl

/-- Claim C10: for every inference response, `describe_image` returns
either the response content stripped of surrounding whitespace or the
exact fallback string; the result is never empty and never has leading
or trailing whitespace, and content consisting only of whitespace is
mapped to the fallback exactly like empty content. -/
theorem C10_describe_stripped (chat : ChatOracle) (img : String) (n : Nat) :
    (describe_image chat img n = fallbackDescription ∨
      ∃ r, chat MODEL_NAME (mkPrompt n) img = Except.ok r ∧
        describe_image chat img n = pyStrip (getContent r)) ∧
    describe_image chat img n ≠ "" ∧
    noEdgeWS (describe_image chat img n).data = true ∧
    ∀ r, chat MODEL_NAME (mkPrompt n) img = Except.ok r →
      (∀ c ∈ (getContent r).data, c.isWhitespace = true) →
      describe_image chat img n = fallbackDescription := by
  cases hc : chat MODEL_NAME (mkPrompt n) img with
  | error msg =>
    have hD : describe_image chat img n = fallbackDescription := by
      unfold describe_image
      rw [hc]
    refine ⟨Or.inl hD, ?_, ?_, ?_⟩
    · rw [hD]
      decide
    · rw [hD]
      decide
    · intro r hr _
      exact absurd hr (by simp)
  | ok r =>
    have hD : describe_image chat img n =
        (if pyStrip (getContent r) = "" then fallbackDescription
         else pyStrip (getContent r)) := by
      unfold describe_image
      rw [hc]
    by_cases he : pyStrip (getContent r) = ""
    · rw [if_pos he] at hD
      refine ⟨Or.inl hD, ?_, ?_, ?_⟩
      · rw [hD]
        decide
      · rw [hD]
        decide
      · intro r' hr' _
        exact hD
    · rw [if_neg he] at hD
      refine ⟨Or.inr ⟨r, rfl, hD⟩, ?_, ?_, ?_⟩
      · rw [hD]
        exact he
      · rw [hD]
        exact noEdgeWS_pyStripL _
      · intro r' hr' hws
        injection hr' with hrr
        subst hrr
        exfalso
        apply he
        show pyStrip (getContent r) = ""
        unfold pyStrip
        rw [pyStripL_eq_nil _ hws]

/-- Witness for C10: whitespace-only content is mapped to the fallback. -/
theorem C10_describe_stripped_witness :
    describe_image (fun _ _ _ => Except.ok ⟨some ⟨some "   "⟩⟩) "" 1 =
      fallbackDescription :=
  (C10_describe_stripped (fun _ _ _ => Except.ok ⟨some ⟨some "   "⟩⟩) "" 1).2.2.2
    ⟨some ⟨some "   "⟩⟩ rfl (by decide)

/-! Helper lemmas about the bounded store operation. -/

theorem appendLog_of_lt (logs : List LogEntry) (e : LogEntry)
    (h : logs.length < capacity) : appendLog logs e = logs ++ [e] := by
  have hn : ¬ (logs ++ [e]).length > capacity := by
    simp only [List.length_append, List.length_cons, List.length_nil, capacity] at *
    omega
  unfold appendLog
  rw [if_neg hn]

theorem appendLog_of_full (logs : List LogEntry) (e : LogEntry)
    (h : logs.length = capacity) : appendLog logs e = logs.tail ++ [e] := by
  have hgt : (logs ++ [e]).length > capacity := by
    simp only [List.length_append, List.length_cons, List.length_nil, capacity] at *
    omega
  have hne : logs ≠ [] := by
    intro h0
    rw [h0] at h
    simp [capacity] at h
  unfold appendLog
  rw [if_pos hgt, List.tail_append_of_ne_nil hne]

theorem appendLog_length_le (logs : List LogEntry) (e : LogEntry)
    (h : logs.length ≤ capacity) : (appendLog logs e).length ≤ capacity := by
  rcases Nat.lt_or_ge logs.length capacity with hlt | hge
  · rw [appendLog_of_lt _ _ hlt]
    simp only [List.length_append, List.length_cons, List.length_nil, capacity] at *
    omega
  · have heq : logs.length = capacity := Nat.le_antisymm h hge
    rw [appendLog_of_full _ _ heq, List.length_append, List.length_tail]
    simp only [List.length_cons, List.length_nil, capacity] at *
    omega

theorem foldl_appendLog (es : List LogEntry) :
    ∀ acc : List LogEntry, acc.length ≤ capacity →
      List.foldl appendLog acc es = (acc ++ es).drop (acc.length + es.length - capacity) := by
  induction es with
  | nil =>
    intro acc h
    simp only [List.foldl_nil, List.append_nil, List.length_nil, Nat.add_zero]
    have h0 : acc.length - capacity = 0 := by
      simp only [capacity] at h ⊢
      omega
    rw [h0, List.drop_zero]
  | cons e es ih =>
    intro acc hacc
    rw [List.foldl_cons]
    rcases Nat.lt_or_ge acc.length capacity with hlt | hge
    · rw [ih (appendLog acc e) (appendLog_length_le acc e hacc), appendLog_of_lt _ _ hlt]
      have hlist : (acc ++ [e]) ++ es = acc ++ e :: es := by
        rw [List.append_assoc, List.singleton_append]
      have hlen : (acc ++ [e]).length + es.length - capacity =
          acc.length + (e :: es).length - capacity := by
        simp only [List.length_append, List.length_cons, List.length_nil]
        omega
      rw [hlist, hlen]
    · have heq : acc.length = capacity := Nat.le_antisymm hacc hge
      rw [ih (appendLog acc e) (appendLog_length_le acc e hacc), appendLog_of_full _ _ heq]
      cases acc with
      | nil => simp [capacity] at heq
      | cons a t =>
        have hlist : ((a :: t).tail ++ [e]) ++ es = t ++ e :: es := by
          rw [List.tail_cons, List.append_assoc, List.singleton_append]
        have hlen1 : ((a :: t).tail ++ [e]).length + es.length - capacity = es.length := by
          simp only [List.tail_cons, List.length_append, List.length_cons,
            List.length_nil, capacity] at heq ⊢
          omega
        have hlen2 : (a :: t).length + (e :: es).length - capacity = es.length + 1 := by
          simp only [List.length_append, List.length_cons, List.length_nil, capacity] at heq ⊢
          omega
        rw [hlen1, hlen2, hlist]
        show _ = List.drop (es.length + 1) (a :: (t ++ e :: es))
        rw [List.drop_succ_cons]

/-- Claim C1: for any sequence of N appends to the empty log store with
N greater than the capacity of 100, the resulting store contains exactly
100 entries and they are the most recent 100 entries appended, in their
original append order (oldest first), i.e. the length-100 suffix of the
append sequence. -/
theorem C1_bounded_buffer (es : List LogEntry) (h : es.length > capacity) :
    (List.foldl appendLog [] es).length = capacity ∧
      List.foldl appendLog [] es = es.drop (es.length - capacity) := by
  have key := foldl_appendLog es [] (by simp [capacity])
  simp only [List.nil_append, List.length_nil, Nat.zero_add] at key
  refine ⟨?_, key⟩
  rw [key, List.length_drop]
  omega

/-- Witness for C1: 101 appends leave exactly the last 100 entries. -/
theorem C1_bounded_buffer_witness :
    ((List.range 101).map (fun i => LogEntry.mk i "" "")).length > capacity ∧
      ((List.foldl appendLog [] ((List.range 101).map (fun i => LogEntry.mk i "" ""))).length =
          capacity ∧
        List.foldl appendLog [] ((List.range 101).map (fun i => LogEntry.mk i "" "")) =
          ((List.range 101).map (fun i => LogEntry.mk i "" "")).drop
            (((List.range 101).map (fun i => LogEntry.mk i "" "")).length - capacity)) :=
  ⟨by simp only [List.length_map, List.length_range, capacity]; omega,
   C1_bounded_buffer _ (by simp only [List.length_map, List.length_range, capacity]; omega)⟩

/-! Helper lemmas about the surveillance loop. -/

theorem loopStep_logs_le {s s1 : LoopState} {c : CycleInput}
    (h : s.logs.length ≤ capacity) (hs : loopStep s c = Except.ok s1) :
    s1.logs.length ≤ capacity := by
  cases c with
  | readFail =>
    simp only [loopStep, Except.ok.injEq] at hs
    subst hs
    exact h
  | gotFrame ts enc chat =>
    cases enc with
    | error msg => simp [loopStep] at hs
    | ok img =>
      simp only [loopStep, Except.ok.injEq] at hs
      subst hs
      exact appendLog_length_le _ _ h

theorem runLoop_logs_le (cycles : List CycleInput) :
    ∀ s s1 : LoopState, s.logs.length ≤ capacity →
      runLoop s cycles = Except.ok s1 → s1.logs.length ≤ capacity := by
  induction cycles with
  | nil =>
    intro s s1 h hr
    simp only [runLoop, Except.ok.injEq] at hr
    subst hr
    exact h
  | cons c cs ih =>
    intro s s1 h hr
    simp only [runLoop] at hr
    cases hc : loopStep s c with
    | error msg =>
      rw [hc] at hr
      simp at hr
    | ok smid =>
      rw [hc] at hr
      exact ih smid s1 (loopStep_logs_le h hc) hr

/-- Claim C2: the log store's length never exceeds the capacity of 100:
`appendLog` preserves the invariant and starting from the empty store
every reachable loop state satisfies it; an append performed while the
store is at capacity evicts exactly the oldest entry (FIFO) and a
non-full append keeps everything; and the only other operation on the
store, the `/logs` read, removes nothing (it is the identity on the
store). -/
theorem C2_capacity_invariant :
    (∀ (logs : List LogEntry) (e : LogEntry), logs.length ≤ capacity →
        ((appendLog logs e).length ≤ capacity ∧
          (logs.length = capacity → appendLog logs e = logs.tail ++ [e]) ∧
          (logs.length < capacity → appendLog logs e = logs ++ [e]) ∧
          get_logs logs = logs)) ∧
      ∀ (cycles : List CycleInput) (s : LoopState),
        runLoop initState cycles = Except.ok s → s.logs.length ≤ capacity := by
  constructor
  · intro logs e h
    exact ⟨appendLog_length_le logs e h,
      fun hfull => appendLog_of_full logs e hfull,
      fun hlt => appendLog_of_lt logs e hlt,
      rfl⟩
  · intro cycles s hr
    exact runLoop_logs_le cycles initState s (by simp [initState, capacity]) hr

/-- Witness for C2: a concrete append respects the bound and the empty
run keeps the store within capacity. -/
theorem C2_capacity_invariant_witness :
    (([] : List LogEntry).length ≤ capacity ∧
        (appendLog [] (LogEntry.mk 1 "t" "d")).length ≤ capacity) ∧
      (runLoop initState [] = Except.ok initState ∧
        initState.logs.length ≤ capacity) :=
  ⟨⟨by decide, (C2_capacity_invariant.1 [] (LogEntry.mk 1 "t" "d") (by decide)).1⟩,
   ⟨rfl, C2_capacity_invariant.2 [] initState rfl⟩⟩

theorem loopStep_history {s s1 : LoopState} {c : CycleInput}
    (h : s.history.map (fun e => e.frame_number) = List.range' 1 s.frame_count)
    (hs : loopStep s c = Except.ok s1) :
    s1.history.map (fun e => e.frame_number) = List.range' 1 s1.frame_count := by
  cases c with
  | readFail =>
    simp only [loopStep, Except.ok.injEq] at hs
    subst hs
    exact h
  | gotFrame ts enc chat =>
    cases enc with
    | error msg => simp [loopStep] at hs
    | ok img =>
      simp only [loopStep, Except.ok.injEq] at hs
      subst hs
      simp only [List.map_append, List.map_cons, List.map_nil, h,
        List.range'_1_concat, Nat.add_comm]

theorem runLoop_history (cycles : List CycleInput) :
    ∀ s s1 : LoopState,
      s.history.map (fun e => e.frame_number) = List.range' 1 s.frame_count →
      runLoop s cycles = Except.ok s1 →
      s1.history.map (fun e => e.frame_number) = List.range' 1 s1.frame_count := by
  induction cycles with
  | nil =>
    intro s s1 h hr
    simp only [runLoop, Except.ok.injEq] at hr
    subst hr
    exact h
  | cons c cs ih =>
    intro s s1 h hr
    simp only [runLoop] at hr
    cases hc : loopStep s c with
    | error msg =>
      rw [hc] at hr
      simp at hr
    | ok smid =>
      rw [hc] at hr
      exact ih smid s1 (loopStep_history h hc) hr

/-- Claim C6: frame numbers are strictly monotonic with no gaps: in any
run from the initial state the ghost append history carries the frame
numbers 1, 2, ..., frame_count exactly (so the first entry has number 1
and any earlier-appended entry has a strictly smaller number than any
later one), and the counter does not change on a failed cycle. -/
theorem C6_frame_monotonic :
    (∀ (cycles : List CycleInput) (s : LoopState),
        runLoop initState cycles = Except.ok s →
          (s.history.map (fun e => e.frame_number) = List.range' 1 s.frame_count ∧
            (s.history.map (fun e => e.frame_number)).Pairwise (· < ·))) ∧
      ∀ t : LoopState, loopStep t CycleInput.readFail = Except.ok t := by
  constructor
  · intro cycles s hr
    have hmap := runLoop_history cycles initState s (by simp [initState]) hr
    exact ⟨hmap, by rw [hmap]; exact List.pairwise_lt_range' 1 s.frame_count⟩
  · intro t
    rfl

/-- Witness for C6: a run with one failed cycle and one successful frame
has history frame numbers exactly the range from 1. -/
theorem C6_frame_monotonic_witness :
    (LoopState.mk 1 [LogEntry.mk 1 "t" "Person detected"]
        [LogEntry.mk 1 "t" "Person detected"]).history.map (fun e => e.frame_number) =
      List.range' 1 (LoopState.mk 1 [LogEntry.mk 1 "t" "Person detected"]
        [LogEntry.mk 1 "t" "Person detected"]).frame_count ∧
    ((LoopState.mk 1 [LogEntry.mk 1 "t" "Person detected"]
        [LogEntry.mk 1 "t" "Person detected"]).history.map
          (fun e => e.frame_number)).Pairwise (· < ·) :=
  C6_frame_monotonic.1
    [CycleInput.readFail,
     CycleInput.gotFrame "t" (Except.ok "img")
       (fun _ _ _ => Except.ok ⟨some ⟨some "Person detected"⟩⟩)]
    (LoopState.mk 1 [LogEntry.mk 1 "t" "Person detected"]
      [LogEntry.mk 1 "t" "Person detected"]) rfl

/-- Counterexample for C4: an `encode_image` failure is not caught
anywhere — it is raised at app.py line 79, outside the try/except of
`describe_image` — so it escapes into the surveillance loop and
terminates it instead of being mapped to the fallback description. -/
theorem C4_encode_escape_counterexample :
    runLoop initState
        [CycleInput.gotFrame "2024-01-01 00:00:00" (Except.error "encode failure")
          (fun _ _ _ => Except.ok ⟨some ⟨some "all clear"⟩⟩)] =
      Except.error "encode failure" := rfl

/-- Claim C4 (amended): failures of the inference call — an exception,
a malformed response or empty content — are caught inside
`describe_image` and mapped to the fixed fallback description, so the
loop appends a fallback entry; but a failure in the image-encoding stage
is not caught: it propagates out of the loop body and terminates the
surveillance loop. -/
theorem C4_failure_policy_amended :
    (∀ (s : LoopState) (ts msg : String) (chat : ChatOracle),
        loopStep s (CycleInput.gotFrame ts (Except.error msg) chat) = Except.error msg) ∧
      ∀ (s : LoopState) (ts img msg : String),
        loopStep s (CycleInput.gotFrame ts (Except.ok img)
            (fun _ _ _ => Except.error msg)) =
          Except.ok ⟨s.frame_count + 1,
            appendLog s.logs ⟨s.frame_count + 1, ts, fallbackDescription⟩,
            s.history ++ [⟨s.frame_count + 1, ts, fallbackDescription⟩]⟩ :=
  ⟨fun _ _ _ _ => rfl, fun _ _ _ _ => rfl⟩

theorem runLoop_isOk (cycles : List CycleInput) :
    ∀ s : LoopState, (∀ c ∈ cycles, encodeOk c) →
      ∃ s1 : LoopState, runLoop s cycles = Except.ok s1 := by
  induction cycles with
  | nil =>
    intro s _
    exact ⟨s, rfl⟩
  | cons c cs ih =>
    intro s h
    have hc := h c (List.mem_cons_self c cs)
    have hrest : ∀ c1 ∈ cs, encodeOk c1 := fun c1 hc1 => h c1 (List.mem_cons_of_mem _ hc1)
    cases c with
    | readFail =>
      simp only [runLoop, loopStep]
      exact ih s hrest
    | gotFrame ts enc chat =>
      obtain ⟨img, rfl⟩ := hc
      simp only [runLoop, loopStep]
      exact ih _ hrest

/-- Counterexample for C8: an uncaught encoding failure also terminates
the surveillance loop, so a source-open failure is not the only failure
after which the loop stops running. -/
theorem C8_fatal_counterexample :
    surveillance_loop true
        [CycleInput.gotFrame "t" (Except.error "encode failure")
          (fun _ _ _ => Except.ok ⟨some ⟨some "ok"⟩⟩)] =
      LoopOutcome.crashed "encode failure" := rfl

/-- Claim C8 (amended): if the video source cannot be opened at startup
the surveillance loop halts without ever reading a frame or appending
any entry; failed reads and inference failures leave the loop running,
but an uncaught exception in the encoding stage also terminates it. -/
theorem C8_startup_fatal_amended :
    (∀ cycles : List CycleInput, surveillance_loop false cycles = LoopOutcome.fatal) ∧
      ∀ cycles : List CycleInput, (∀ c ∈ cycles, encodeOk c) →
        ∃ s : LoopState, surveillance_loop true cycles = LoopOutcome.running s := by
  constructor
  · intro cycles
    rfl
  · intro cycles h
    obtain ⟨s1, hs1⟩ := runLoop_isOk cycles initState h
    refine ⟨s1, ?_⟩
    simp only [surveillance_loop, if_true, hs1]

/-- Witness for C8 (amended): with the source closed the loop is fatal;
with it open, a failed-read cycle leaves the loop running. -/
theorem C8_startup_fatal_amended_witness :
    surveillance_loop false [] = LoopOutcome.fatal ∧
      ∃ s : LoopState, surveillance_loop true [CycleInput.readFail] = LoopOutcome.running s :=
  ⟨C8_startup_fatal_amended.1 [],
   C8_startup_fatal_amended.2 [CycleInput.readFail] (by
      intro c hc
      simp only [List.mem_singleton] at hc
      subst hc
      trivial)⟩

/-- A store holding exactly `capacity` entries, used to exhibit an
over-capacity observation by a concurrent reader. -/
def fullStore : List LogEntry := (List.range capacity).map (fun i => ⟨i + 1, "", ""⟩)

/-- Counterexample for C9: the `/logs` handler serializes the live
shared list, not an independent snapshot; in the valid interleaving
where a read runs between the producer's `append` and its eviction
check, the reader observes 101 entries — more than any store state the
sequential append operation ever commits, so the read is not a
point-in-time copy of the store made without interference. -/
theorem C9_snapshot_counterexample :
    ValidTrace false
        [MicroOp.pyAppend (LogEntry.mk 101 "" ""), MicroOp.read, MicroOp.pyPopIfOver] ∧
      fullStore.length = capacity ∧
      (runMicro fullStore
          [MicroOp.pyAppend (LogEntry.mk 101 "" ""), MicroOp.read, MicroOp.pyPopIfOver]).2 =
        [fullStore ++ [LogEntry.mk 101 "" ""]] ∧
      (fullStore ++ [LogEntry.mk 101 "" ""]).length = capacity + 1 :=
  ⟨ValidTrace.app (ValidTrace.read (ValidTrace.pop ValidTrace.nil)),
   by simp [fullStore, capacity],
   rfl,
   by simp [fullStore, capacity]⟩

theorem microObs_le (t : List MicroOp) :
    ∀ (p : Bool) (logs : List LogEntry), ValidTrace p t →
      logs.length ≤ cond p (capacity + 1) capacity →
      ∀ obs ∈ (runMicro logs t).2, obs.length ≤ capacity + 1 := by
  induction t with
  | nil =>
    intro p logs _ _ obs hobs
    simp [runMicro] at hobs
  | cons op ops ih =>
    intro p logs hv hlen obs hobs
    cases hv with
    | read hv1 =>
      simp only [runMicro, get_logs] at hobs
      rcases List.mem_cons.mp hobs with rfl | hmem
      · cases p with
        | false =>
          simp only [Bool.cond_false] at hlen
          omega
        | true =>
          simp only [Bool.cond_true] at hlen
          exact hlen
      · exact ih p logs hv1 hlen obs hmem
    | app hv1 =>
      simp only [runMicro] at hobs
      refine ih true _ hv1 ?_ obs hobs
      simp only [Bool.cond_false] at hlen
      simp only [Bool.cond_true, List.length_append, List.length_cons, List.length_nil]
      omega
    | pop hv1 =>
      simp only [runMicro] at hobs
      refine ih false _ hv1 ?_ obs hobs
      simp only [Bool.cond_true] at hlen
      simp only [Bool.cond_false]
      by_cases hgt : logs.length > capacity
      · rw [if_pos hgt, List.length_tail]
        omega
      · rw [if_neg hgt]
        omega

/-- Claim C9 (amended): the `/logs` handler returns the live shared list
itself — not an independent copy. With the GIL making each list
operation atomic, a reader never observes a torn entry: every
observation in a valid interleaving is a genuine intermediate list
state, of at most `capacity` entries except between the producer's
append and its eviction check, where a reader can observe
`capacity + 1` entries. -/
theorem C9_snapshot_amended (t : List MicroOp) (logs : List LogEntry)
    (hv : ValidTrace false t) (hlen : logs.length ≤ capacity) :
    get_logs logs = logs ∧
      ∀ obs ∈ (runMicro logs t).2, obs.length ≤ capacity + 1 :=
  ⟨rfl, microObs_le t false logs hv (by simpa using hlen)⟩

/-- Witness for C9 (amended): a concrete valid interleaving from the
empty store keeps every observation within `capacity + 1` entries. -/
theorem C9_snapshot_amended_witness :
    get_logs ([] : List LogEntry) = [] ∧
      ∀ obs ∈ (runMicro []
          [MicroOp.pyAppend ⟨1, "", ""⟩, MicroOp.read, MicroOp.pyPopIfOver]).2,
        obs.length ≤ capacity + 1 :=
  C9_snapshot_amended _ []
    (ValidTrace.app (ValidTrace.read (ValidTrace.pop ValidTrace.nil))) (by decide)

end Eversee
